import Mathlib

/-!
Verification of the infix TSM/WAL rule pipeline (Abc-Arbitrage/infix).

This file shallowly embeds the parts of the Go source relevant to the
claims under scrutiny: the filter algebra (`filter/filter.go`), the key
helpers of the external influxdb library (spec paragraph 6.3), the built-in
rules `drop-field`, `update-field-type`, `update-tag-value`, `old-serie` and
`drop-serie`, and the per-key TSM streaming loop of `command/command.go`.

Go byte slices and strings are modelled as Lean `String`; Go `int64` as
`Int`; Go `uint64` as `Nat`; fallible Go calls return `Except GoErr`.
A Go runtime panic (integer division by zero) is modelled as `Option`
with `none` for the panic.  IEEE-754 `float64` values are kept abstract:
the embedding is parameterised by a carrier type together with the five
float primitives the source uses (`FloatOps`).
-/

namespace Infix

/-- Go error values, modelled by their message text. -/
abbrev GoErr := String

/-- Composite keys and Go byte slices, modelled as strings. -/
abbrev Key := String

/-! ## String helpers

Core `String` order and search functions are position-based; the embedding
uses structural recursion over `String.data` so every definition evaluates
by `decide`/`rfl`. -/

/-- Lexicographic order on character lists; agrees with Go's `<=` on
(valid UTF-8) strings, hence with the order used by `sort.Strings`. -/
def lexLe : List Char → List Char → Bool
  | [], _ => true
  | _ :: _, [] => false
  | a :: as, b :: bs => if a = b then lexLe as bs else decide (a < b)

/-- Go string `<=`, used by `sort.Strings` in `OldSerieRule.End`. -/
def strLe (a b : String) : Bool := lexLe a.data b.data

/-- Go `strings.HasPrefix`, over the character list. -/
def goStartsWith (s pre : String) : Bool := pre.data.isPrefixOf s.data

/-- Split a character list at the first occurrence of a separator list,
returning the material before and after it; `none` when the separator does
not occur. -/
def splitFirst (sep : List Char) : List Char → Option (List Char × List Char)
  | [] => if sep = [] then some ([], []) else none
  | c :: cs =>
    if sep.isPrefixOf (c :: cs) then some ([], (c :: cs).drop sep.length)
    else match splitFirst sep cs with
      | some (a, b) => some (c :: a, b)
      | none => none

/-- Split a character list on every occurrence of a separator character. -/
def splitOnChar (sep : Char) : List Char → List (List Char)
  | [] => [[]]
  | c :: cs =>
    if c = sep then [] :: splitOnChar sep cs
    else match splitOnChar sep cs with
      | [] => [[c]]
      | h :: t => (c :: h) :: t

/-! ## Key helpers (spec paragraph 6.3, external influxdb library)

Modelled from the spec: `tsm1.SeriesAndFieldFromCompositeKey`,
`models.ParseKey` and `models.MakeKey` are external library functions
(spec 6.3 treats them as three pure helpers).  The composite-key grammar
is `measurement,tag1=v1,... #!~# field`; tag-value escaping is not
modelled (no key used below contains escapes). -/

/-- The `tsm1` separator between the series key and the field. -/
def keyFieldSeparator : String := "#!~#"

/-- `tsm1.SeriesAndFieldFromCompositeKey`: split a composite key at the
first separator; a key without separator yields an empty field. -/
def seriesAndField (key : Key) : Key × String :=
  match splitFirst keyFieldSeparator.data key.data with
  | some (a, b) => (⟨a⟩, ⟨b⟩)
  | none => (key, "")

/-- A single tag, key and value. -/
structure Tag where
  key : String
  value : String
  deriving DecidableEq, Repr

/-- `models.ParseKey`: measurement and ordered tag list of a series key. -/
def parseKey (seriesKey : Key) : String × List Tag :=
  match splitOnChar ',' seriesKey.data with
  | [] => ("", [])
  | m :: rest =>
    (⟨m⟩, rest.map fun t =>
      match splitFirst ['='] t with
      | some (k, v) => { key := ⟨k⟩, value := ⟨v⟩ }
      | none => { key := ⟨t⟩, value := "" })

/-- `models.MakeKey`: re-compose a series key from measurement and tags. -/
def makeSeriesKey (measurement : String) (tags : List Tag) : Key :=
  tags.foldl (fun acc t => acc ++ "," ++ t.key ++ "=" ++ t.value) measurement

/-- `tsm1.SeriesFieldKeyBytes`: re-attach a field to a series key. -/
def seriesFieldKey (seriesKey : Key) (field : String) : Key :=
  seriesKey ++ keyFieldSeparator ++ field

/-! ## Filter algebra (src/filter/filter.go) -/

/-- `ExcludeFilter.Filter` (filter.go lines 124-133): scan the configured
list; return `false` as soon as a listed string equals the key, `true`
when the list is exhausted. -/
def excludeFilter (excludes : List String) (key : String) : Bool :=
  match excludes with
  | [] => true
  | inc :: rest => if inc == key then false else excludeFilter rest key

/-- `IncludeFilter.Filter` (filter.go lines 100-109). -/
def includeFilter (includes : List String) (key : String) : Bool :=
  match includes with
  | [] => false
  | inc :: rest => if inc == key then true else includeFilter rest key

/-- `MeasurementFilter.Filter` (filter.go lines 177-182): extract the
measurement from the composite key and delegate. -/
def measurementFilter (f : String → Bool) (key : Key) : Bool :=
  f (parseKey (seriesAndField key).1).1

/-! ## Values (external `tsm1.Value`, spec paragraph 3)

A value is a timestamp paired with one of five payload variants.  The
`float64` payload is abstract (type parameter `F`). -/

/-- The InfluxQL data types (`influxql.DataType`) used by the rules. -/
inductive DataType
  | float
  | integer
  | unsigned
  | boolean
  | str
  deriving DecidableEq, Repr

/-- `influxql.DataType.String()` for the five value types. -/
def DataType.goString : DataType → String
  | .float => "float"
  | .integer => "integer"
  | .unsigned => "unsigned"
  | .boolean => "boolean"
  | .str => "string"

/-- The payload of a `tsm1.Value`: `float64` (abstract carrier `F`),
`int64`, `uint64`, `bool` or `string`. -/
inductive Payload (F : Type)
  | float (f : F)
  | integer (i : Int)
  | unsigned (u : Nat)
  | boolean (b : Bool)
  | str (s : String)
  deriving DecidableEq, Repr

/-- A `tsm1.Value`: unix-nano timestamp and payload. -/
structure GoValue (F : Type) where
  t : Int
  v : Payload F
  deriving DecidableEq, Repr

/-- The payload variant of a value. -/
def GoValue.dataType {F : Type} (v : GoValue F) : DataType :=
  match v.v with
  | .float _ => .float
  | .integer _ => .integer
  | .unsigned _ => .unsigned
  | .boolean _ => .boolean
  | .str _ => .str

/-- Modelled from the spec: the external `tsm1.Values.InfluxQLType`
(spec paragraph 3: all values of a batch share one payload variant and the
batch's InfluxQLType is that variant); the variant of the first value,
an error on an empty batch. -/
def influxQLType {F : Type} : List (GoValue F) → Except GoErr DataType
  | [] => .error "no values"
  | v :: _ => .ok v.dataType

/-! ## drop-serie counters (DropSerieRule, src/unnamed/part_016) -/

/-- Go integer division: a division by zero is a runtime panic, modelled
as `none`. -/
def goDiv (a b : Nat) : Option Nat :=
  if b = 0 then none else some (a / b)

/-- The mutable counters of `DropSerieRule`. -/
structure DropSerieState where
  count : Nat
  total : Nat
  shardCount : Nat
  shardTotal : Nat
  deriving DecidableEq, Repr

/-- `DropSerieRule.StartShard`: reset the per-shard counters. -/
def dropSerieStartShard (s : DropSerieState) : DropSerieState :=
  { s with shardCount := 0, shardTotal := 0 }

/-- `DropSerieRule.StartTSM`: reset the per-file counters. -/
def dropSerieStartTSM (s : DropSerieState) : DropSerieState :=
  { s with count := 0, total := 0 }

/-- `DropSerieRule.Apply`: count the key, drop it when the filter
matches. -/
def dropSerieApply {F : Type} (dropFilter : Key → Bool) (s : DropSerieState)
    (key : Key) (values : List (GoValue F)) :
    DropSerieState × Option Key × List (GoValue F) :=
  let s := { s with total := s.total + 1 }
  if dropFilter key then
    ({ s with count := s.count + 1 }, none, [])
  else
    (s, some key, values)

/-- `DropSerieRule.EndShard`: log `(shardCount*100)/shardTotal` — the
division is unguarded, so `shardTotal = 0` panics (`none`). -/
def dropSerieEndShard (s : DropSerieState) : Option Nat :=
  goDiv (s.shardCount * 100) s.shardTotal

/-- `DropSerieRule.EndTSM`: fold the per-file counters into the per-shard
ones, then log `(count*100)/total` — again unguarded. -/
def dropSerieEndTSM (s : DropSerieState) : DropSerieState × Option Nat :=
  ({ s with shardCount := s.shardCount + s.count,
            shardTotal := s.shardTotal + s.total },
   goDiv (s.count * 100) s.total)

/-! ## Rule flags (src/rules/rule.go lines 42-58) -/

/-- `rules.TSMReadOnly`. -/
def TSMReadOnly : Nat := 1
/-- `rules.WALReadOnly`. -/
def WALReadOnly : Nat := 2
/-- `rules.TSMWriteOnly`. -/
def TSMWriteOnly : Nat := 4
/-- `rules.WALWriteOnly`. -/
def WALWriteOnly : Nat := 8
/-- `rules.ReadOnly`. -/
def ReadOnlyFlags : Nat := TSMReadOnly ||| WALReadOnly
/-- `rules.Standard`. -/
def StandardFlags : Nat := TSMWriteOnly ||| WALWriteOnly

/-- The shard description passed to `StartShard` (storage.ShardInfo),
reduced to the members the modelled callbacks consult. -/
structure ShardInfo where
  id : Nat
  path : String
  deriving DecidableEq, Repr

/-- A rule as seen by the pipeline (`rules.Rule` contract, rule.go lines
60-80), over an arbitrary value type `V`.  `apply` returns the new key
(`none` models Go's `nil` key, a drop), the new values and possibly an
error; `endShard` is the outcome of the `EndShard` call for the current
shard. -/
structure PRule (V : Type) where
  flags : Nat
  filterKey : Key → Bool
  startShard : ShardInfo → Bool
  startTSM : String → Bool
  apply : Key → List V → Except GoErr (Option Key × List V)
  endShard : Except GoErr Unit

/-- `Command.filterFlaggedRules` (command.go lines 550-554). -/
def filterFlaggedRules {V : Type} (rs : List (PRule V)) (flags : Nat) :
    List (PRule V) :=
  rs.filter (fun r => r.flags &&& flags != 0)

/-- `Command.filterRulesMatchingKey` (command.go lines 544-548). -/
def filterRulesMatchingKey {V : Type} (rs : List (PRule V)) (key : Key) :
    List (PRule V) :=
  rs.filter (fun r => r.filterKey key)

/-- The write-rule loop of `Command.processTSMFile` (command.go lines
313-322): pipe `(key, values)` through each write rule in order, breaking
as soon as a rule returns a nil key; a rule error aborts. -/
def pipeWrite {V : Type} : List (PRule V) → Key → List V →
    Except GoErr (Option Key × List V)
  | [], k, v => .ok (some k, v)
  | r :: rs, k, v =>
    match r.apply k v with
    | .error e => .error e
    | .ok (none, v') => .ok (none, v')
    | .ok (some k', v') => pipeWrite rs k' v'

/-- The read-rule loop of `Command.processTSMFile` (command.go lines
306-311): apply every read rule, ignoring returned keys and values,
propagating errors. -/
def runReadRules {V : Type} : List (PRule V) → Key → List V →
    Except GoErr Unit
  | [], _, _ => .ok ()
  | r :: rs, k, v =>
    match r.apply k v with
    | .error _ => .error "read rule error"
    | .ok _ => runReadRules rs k v

/-- The write decision after the write-rule loop (command.go lines
324-328): the rewriter receives `(key, values)` exactly when the final key
is non-nil. -/
def rewriterWritesForPair {V : Type} (writeRules : List (PRule V))
    (key : Key) (values : List V) : Except GoErr (List (Key × List V)) :=
  match pipeWrite writeRules key values with
  | .error e => .error e
  | .ok (none, _) => .ok []
  | .ok (some k, v) => .ok [(k, v)]

/-- Processing of one key of a TSM file (command.go lines 282-329): global
filter, per-key narrowing of the read and write rule sets by `FilterKey`,
skip when both are empty, then the read loop, the write loop and the write
decision. -/
def processTSMKey {V : Type} (globalFilter : Key → Bool)
    (rs : List (PRule V)) (key : Key) (values : List V) :
    Except GoErr (List (Key × List V)) :=
  if globalFilter key then .ok []
  else
    let readRules := filterRulesMatchingKey (filterFlaggedRules rs TSMReadOnly) key
    let writeRules := filterRulesMatchingKey (filterFlaggedRules rs TSMWriteOnly) key
    if readRules.isEmpty && writeRules.isEmpty then .ok []
    else
      match runReadRules readRules key values with
      | .error e => .error e
      | .ok _ => rewriterWritesForPair writeRules key values

/-- The `StartShard` loop of `Command.processShard` (command.go lines
201-203): `r.StartShard(info)` is called on every rule but its boolean
result is discarded — every rule is kept. -/
def startShardLoop {V : Type} : List (PRule V) → ShardInfo → List (PRule V)
  | [], _ => []
  | r :: rs, info =>
    let _ := r.startShard info
    r :: startShardLoop rs info

/-- Rule selection of `Command.processTSMFile` (command.go lines 244-246):
keep the rules whose `StartTSM` returns true for the file. -/
def tsmFileRules {V : Type} (rs : List (PRule V)) (path : String) :
    List (PRule V) :=
  rs.filter (fun r => r.startTSM path)

/-- One key of one TSM file of one shard, from the top of
`Command.processShard`: the `StartShard` loop, the `StartTSM` selection
(empty selection skips the file, command.go lines 248-251), then the
per-key processing. -/
def shardTSMKeyWrites {V : Type} (rules : List (PRule V)) (info : ShardInfo)
    (path : String) (globalFilter : Key → Bool) (key : Key)
    (values : List V) : Except GoErr (List (Key × List V)) :=
  let active := startShardLoop rules info
  let rs := tsmFileRules active path
  if rs.isEmpty then .ok []
  else processTSMKey globalFilter rs key values

/-- The two rewriters of the TSM pass. -/
inductive RewriterKind
  | noop
  | cached
  deriving DecidableEq, Repr

/-- `Command.createRewriter` (command.go lines 479-486): a no-op rewriter
in check mode or when every rule carries the TSM read flag; the cached
rewriter otherwise. -/
def createRewriter {V : Type} (check : Bool) (rules : List (PRule V)) :
    RewriterKind :=
  let readRules := filterFlaggedRules rules TSMReadOnly
  if check || readRules.length == rules.length then .noop else .cached

/-- `Command.createWALWriter` (command.go lines 518-525): whether a WAL
segment writer is created; `false` in check mode or when every active rule
carries the WAL read flag.  `processWALFile` renames the temporary file
onto the WAL only when a writer exists (command.go lines 460-464), so this
also decides whether the WAL pass renames. -/
def createWALWriter {V : Type} (check : Bool) (rs : List (PRule V)) : Bool :=
  let readRules := filterFlaggedRules rs WALReadOnly
  if check || readRules.length == rs.length then false else true

/-- The `EndShard` loop of `Command.processShard` (command.go lines
227-229): each rule's `EndShard` is called and its error result is
discarded. -/
def endShardLoop {V : Type} : List (PRule V) → Unit
  | [] => ()
  | r :: rs =>
    let _ := r.endShard
    endShardLoop rs

/-- The tail of `Command.processShard` (command.go lines 227-238): the
`EndShard` loop (errors discarded), then — outside check mode — the field
index save, whose error does propagate. -/
def processShardEnd {V : Type} (check : Bool) (rules : List (PRule V))
    (save : Except GoErr Unit) : Except GoErr Unit :=
  let _ := endShardLoop rules
  if check then .ok ()
  else
    match save with
    | .error e => .error e
    | .ok _ => .ok ()

/-- Whether `Command.processShard` itself saves the field index
(command.go lines 231-236). -/
def pipelineSavesIndex (check : Bool) : Bool := !check

/-- `PassFilter.Filter` (src/unnamed/part_000 lines 139-141), the default
global filter: it excludes nothing. -/
def passFilter (_ : Key) : Bool := false

/-- A minimal standard-flagged rule that drops every key; a concrete
instance of the `rules.Rule` contract used to exercise the pipeline
theorems. -/
def dropAllRule : PRule Unit where
  flags := StandardFlags
  filterKey := fun _ => true
  startShard := fun _ => true
  startTSM := fun _ => true
  apply := fun _ _ => .ok (none, [])
  endShard := .ok ()

/-- A standard-flagged rule whose `StartShard` answers `false` and whose
`Apply` appends a marker to every key; a concrete instance of the
`rules.Rule` contract that makes participation observable. -/
def mutateKeyRule : PRule Unit where
  flags := StandardFlags
  filterKey := fun _ => true
  startShard := fun _ => false
  startTSM := fun _ => true
  apply := fun k v => .ok (some (k ++ "!"), v)
  endShard := .ok ()

/-! ## Association-list maps

Go maps, modelled as association lists; Go map iteration order is
unspecified, the model iterates in insertion order. -/

/-- Map lookup. -/
def alookup {α : Type} : List (String × α) → String → Option α
  | [], _ => none
  | (k, v) :: rest, key => if k == key then some v else alookup rest key

/-- Map write (`m[k] = v`): replace in place or append. -/
def aset {α : Type} : List (String × α) → String → α → List (String × α)
  | [], k, v => [(k, v)]
  | (k', v') :: rest, k, v =>
    if k' == k then (k, v) :: rest else (k', v') :: aset rest k v

/-- Map deletion (`delete(m, k)`). -/
def adelete {α : Type} : List (String × α) → String → List (String × α)
  | [], _ => []
  | (k', v') :: rest, k =>
    if k' == k then adelete rest k else (k', v') :: adelete rest k

/-- The field-type map of one measurement (external
`tsdb.MeasurementFields`, spec paragraph 3). -/
abbrev FieldTypeMap := List (String × DataType)

/-- The per-shard field index (external `tsdb.MeasurementFieldSet`):
`measurement → field → declared type`. -/
abbrev FieldsIndex := List (String × FieldTypeMap)

/-! ## drop-field (src/rules/drop_field.go) -/

/-- `DropFieldRule.Apply` (drop_field.go lines 140-177): compute the batch
type, decompose the key, and when the (wrapped) measurement filter, the
field filter and the type filter all match, drop the pair and record the
field under its measurement.  SOURCE BUG kept by the model: when the
measurement is already present in the `deleted` map, drop_field.go lines
157-168 append the field to the local `fields` slice and never store the
slice back into the map, so the map retains only the first dropped field
of each measurement. -/
def dropFieldApply {F : Type} (measF fieldF typeF : String → Bool)
    (deleted : List (String × List String)) (key : Key)
    (values : List (GoValue F)) :
    Except GoErr (List (String × List String) × Option Key × List (GoValue F)) :=
  match influxQLType values with
  | .error e => .error e
  | .ok dt =>
    let typeString := dt.goString
    let sf := seriesAndField key
    if measurementFilter measF key && fieldF sf.2 && typeF typeString then
      let measurement := (parseKey sf.1).1
      match alookup deleted measurement with
      | some _ => .ok (deleted, none, [])
      | none => .ok (deleted ++ [(measurement, [sf.2])], none, [])
    else
      .ok (deleted, some key, values)

/-- The inner loop of `DropFieldRule.EndShard` (drop_field.go lines
93-107) for one old field `(name, t)`: iterate the dropped-fields list
with `found` initially false; on equality break without adding; otherwise
— the misplaced `if !found` sits inside the loop — add `name` to the
temporary map and continue. -/
def dropFieldRebuildAdd (name : String) (t : DataType) (fields : List String)
    (found : Bool) (tmp : FieldTypeMap) : FieldTypeMap :=
  match fields with
  | [] => tmp
  | f :: fs =>
    if name == f then tmp
    else
      let tmp' := if !found then aset tmp name t else tmp
      dropFieldRebuildAdd name t fs found tmp'

/-- `DropFieldRule.EndShard`'s rebuild of one measurement's field map
(drop_field.go lines 91-107): fold the inner loop over the old fields. -/
def dropFieldRebuild (oldFields : FieldTypeMap) (fields : List String) :
    FieldTypeMap :=
  oldFields.foldl (fun tmp nt => dropFieldRebuildAdd nt.1 nt.2 fields false tmp) []

/-- The per-measurement loop of `DropFieldRule.EndShard` (drop_field.go
lines 84-117): look the measurement up in the index (missing is an
error), rebuild its field map, delete and re-create the index entry. -/
def dropFieldEndShardLoop (deleted : List (String × List String))
    (idx : FieldsIndex) : Except GoErr FieldsIndex :=
  match deleted with
  | [] => .ok idx
  | (m, fields) :: rest =>
    match alookup idx m with
    | none => .error ("Failed to find fields in index for measurement " ++ m)
    | some oldFields =>
      dropFieldEndShardLoop rest (aset (adelete idx m) m (dropFieldRebuild oldFields fields))

/-- `DropFieldRule.EndShard` (drop_field.go lines 73-124): a no-op in
check mode or with nothing deleted; otherwise rebuild every affected
measurement and save.  Returns the final index and whether `Save` ran. -/
def dropFieldEndShard (check : Bool) (deleted : List (String × List String))
    (idx : FieldsIndex) : Except GoErr (FieldsIndex × Bool) :=
  if check || deleted.isEmpty then .ok (idx, false)
  else
    match dropFieldEndShardLoop deleted idx with
    | .error e => .error e
    | .ok idx' => .ok (idx', true)

/-- Whether `DropFieldRule.EndShard` saves the field index. -/
def dropFieldEndShardSaves (check : Bool) (deleted : List (String × List String))
    (idx : FieldsIndex) : Bool :=
  match dropFieldEndShard check deleted idx with
  | .ok (_, s) => s
  | .error _ => false

/-! ## Go strconv models (external standard library)

Modelled from the spec: `strconv.ParseInt(s, 10, 64)` and
`strconv.ParseBool(s)` of the Go standard library, per their documented
grammar (optional sign and decimal digits within the int64 range; the
twelve literal boolean spellings). -/

/-- Accumulate decimal digits; any non-digit character fails. -/
def digitsToNatAux (acc : Nat) : List Char → Option Nat
  | [] => some acc
  | c :: cs =>
    if c.isDigit then digitsToNatAux (acc * 10 + (c.toNat - 48)) cs else none

/-- A non-empty run of decimal digits. -/
def digitsToNat (l : List Char) : Option Nat :=
  if l.isEmpty then none else digitsToNatAux 0 l

/-- `strconv.ParseInt(s, 10, 64)`. -/
def goParseInt64 (s : String) : Option Int :=
  let p : Bool × List Char :=
    match s.data with
    | '+' :: rest => (false, rest)
    | '-' :: rest => (true, rest)
    | l => (false, l)
  match digitsToNat p.2 with
  | none => none
  | some n =>
    if p.1 then (if n ≤ 2 ^ 63 then some (-(n : Int)) else none)
    else (if n ≤ 2 ^ 63 - 1 then some (n : Int) else none)

/-- `strconv.ParseBool`. -/
def goParseBool (s : String) : Option Bool :=
  if s == "1" || s == "t" || s == "T" || s == "true" || s == "TRUE" || s == "True"
  then some true
  else if s == "0" || s == "f" || s == "F" || s == "false" || s == "FALSE" || s == "False"
  then some false
  else none

/-! ## update-field-type (src/rules/update_field_type.go)

The IEEE-754 `float64` carrier is abstract: `FloatOps` packages the five
float primitives the source uses. -/

/-- The float primitives used by `update_field_type.go`: `v != 0.0`,
the truncating `int64(v)` conversion, the widening `float64(int64)` and
`float64(uint64)` conversions, `strconv.FormatFloat(v, 'f', 6, 64)` and
`strconv.ParseFloat(s, 64)`. -/
structure FloatOps (F : Type) where
  isNonzero : F → Bool
  trunc : F → Int
  ofInt : Int → F
  ofNat : Nat → F
  format6 : F → String
  parse : String → Option F

/-- `castToFloat` (update_field_type.go lines 244-264).  The boolean is
Go's `ok` result: `true` means the value already had the target type. -/
def castToFloat {F : Type} (ops : FloatOps F) (value : GoValue F) :
    Except GoErr (GoValue F × Bool) :=
  match value.v with
  | .float _ => .ok (value, true)
  | .integer i => .ok ({ t := value.t, v := .float (ops.ofInt i) }, false)
  | .unsigned u => .ok ({ t := value.t, v := .float (ops.ofNat u) }, false)
  | .boolean _ => .error "Could not cast bool value to float"
  | .str s =>
    match ops.parse s with
    | none => .error ("parsing " ++ s ++ ": invalid syntax")
    | some f => .ok ({ t := value.t, v := .float f }, false)

/-- `castToInteger` (update_field_type.go lines 266-287); note that a
`uint64` payload passes through unchanged. -/
def castToInteger {F : Type} (ops : FloatOps F) (value : GoValue F) :
    Except GoErr (GoValue F × Bool) :=
  match value.v with
  | .float f => .ok ({ t := value.t, v := .integer (ops.trunc f) }, false)
  | .integer _ => .ok (value, true)
  | .unsigned _ => .ok (value, true)
  | .boolean b => .ok ({ t := value.t, v := .integer (if b then 1 else 0) }, false)
  | .str s =>
    match goParseInt64 s with
    | none => .error ("parsing " ++ s ++ ": invalid syntax")
    | some i => .ok ({ t := value.t, v := .integer i }, false)

/-- `castToBoolean` (update_field_type.go lines 296-319). -/
def castToBoolean {F : Type} (ops : FloatOps F) (value : GoValue F) :
    Except GoErr (GoValue F × Bool) :=
  match value.v with
  | .float f => .ok ({ t := value.t, v := .boolean (ops.isNonzero f) }, false)
  | .integer i => .ok ({ t := value.t, v := .boolean (i == 1) }, false)
  | .unsigned u => .ok ({ t := value.t, v := .boolean (u == 1) }, false)
  | .boolean _ => .ok (value, true)
  | .str s =>
    match goParseBool s with
    | none => .error ("parsing " ++ s ++ ": invalid syntax")
    | some b => .ok ({ t := value.t, v := .boolean b }, false)

/-- `castToString` (update_field_type.go lines 321-340):
`strconv.FormatInt(v, 10)` and `strconv.FormatUint(v, 10)` are decimal
rendering, `strconv.FormatBool` is the two literals. -/
def castToString {F : Type} (ops : FloatOps F) (value : GoValue F) :
    Except GoErr (GoValue F × Bool) :=
  match value.v with
  | .float f => .ok ({ t := value.t, v := .str (ops.format6 f) }, false)
  | .integer i => .ok ({ t := value.t, v := .str (toString i) }, false)
  | .unsigned u => .ok ({ t := value.t, v := .str (toString u) }, false)
  | .boolean b => .ok ({ t := value.t, v := .str (if b then "true" else "false") }, false)
  | .str _ => .ok (value, true)

/-- `EnsureValueType` (update_field_type.go lines 229-242): dispatch on
the target type; the `unsigned` target falls into the default error. -/
def ensureValueType {F : Type} (ops : FloatOps F) (value : GoValue F) :
    DataType → Except GoErr (GoValue F × Bool)
  | .float => castToFloat ops value
  | .integer => castToInteger ops value
  | .boolean => castToBoolean ops value
  | .str => castToString ops value
  | .unsigned => .error "Invalid cast for data type unsigned"

/-- The updates-map bookkeeping inside the value loop of
`UpdateFieldTypeRule.Apply` (update_field_type.go lines 163-181): record
the `(measurement, field)` pair when a value actually changed
(`ok = false`) and the field is not yet recorded. -/
def updateFieldTypeRecord (measurement field : String) (okFlag : Bool)
    (updates : List (String × List String)) : List (String × List String) :=
  if !okFlag then
    match alookup updates measurement with
    | none => aset updates measurement [field]
    | some fs =>
      if fs.contains field then updates
      else aset updates measurement (fs ++ [field])
  else updates

/-- The value loop of `UpdateFieldTypeRule.Apply` (update_field_type.go
lines 157-184), continued: convert each value and thread the updates
map. -/
def updateFieldTypeLoop {F : Type} (ops : FloatOps F) (toType : DataType)
    (measurement field : String) (updates : List (String × List String)) :
    List (GoValue F) →
    Except GoErr (List (String × List String) × List (GoValue F))
  | [] => .ok (updates, [])
  | value :: rest =>
    match ensureValueType ops value toType with
    | .error e => .error e
    | .ok (v, okFlag) =>
      match updateFieldTypeLoop ops toType measurement field
          (updateFieldTypeRecord measurement field okFlag updates) rest with
      | .error e => .error e
      | .ok (u, vs) => .ok (u, v :: vs)

/-- `UpdateFieldTypeRule.Apply` (update_field_type.go lines 145-191):
when measurement and field filters match, gate on the batch type — values
convert only when it equals `fromType` and `fromType` differs from
`toType`; otherwise the batch passes through unchanged. -/
def updateFieldTypeApply {F : Type} (ops : FloatOps F)
    (measF fieldF : String → Bool) (fromType toType : DataType)
    (updates : List (String × List String)) (key : Key)
    (values : List (GoValue F)) :
    Except GoErr (List (String × List String) × Key × List (GoValue F)) :=
  let sf := seriesAndField key
  let measurement := (parseKey sf.1).1
  if measF measurement && fieldF sf.2 then
    match influxQLType values with
    | .error e => .error e
    | .ok it =>
      if it != fromType || it == toType then .ok (updates, key, values)
      else
        match updateFieldTypeLoop ops toType measurement sf.2 updates values with
        | .error e => .error e
        | .ok (u, vs) => .ok (u, key, vs)
  else
    .ok (updates, key, values)

/-- The per-field loop of `UpdateFieldTypeRule.EndShard`
(update_field_type.go lines 104-114): a missing field is an error,
otherwise its declared type is set to `toType`. -/
def setFieldTypes (toType : DataType) :
    FieldTypeMap → List String → Except GoErr FieldTypeMap
  | fields, [] => .ok fields
  | fields, f :: rest =>
    match alookup fields f with
    | none => .error ("Could not find field " ++ f)
    | some _ => setFieldTypes toType (aset fields f toType) rest

/-- The per-measurement loop of `UpdateFieldTypeRule.EndShard`
(update_field_type.go lines 98-116). -/
def updateFieldTypeEndShardLoop (toType : DataType)
    (updates : List (String × List String)) (idx : FieldsIndex) :
    Except GoErr FieldsIndex :=
  match updates with
  | [] => .ok idx
  | (m, fs) :: rest =>
    match alookup idx m with
    | none => .error ("Could not find fields. Measurement " ++ m)
    | some fields =>
      match setFieldTypes toType fields fs with
      | .error e => .error e
      | .ok fields' => updateFieldTypeEndShardLoop toType rest (aset idx m fields')

/-- `UpdateFieldTypeRule.EndShard` (update_field_type.go lines 91-124):
nothing happens without recorded updates; otherwise the index is mutated
in memory and saved only outside check mode.  Returns the final in-memory
index and whether `Save` ran. -/
def updateFieldTypeEndShard (check : Bool) (toType : DataType)
    (updates : List (String × List String)) (idx : FieldsIndex) :
    Except GoErr (FieldsIndex × Bool) :=
  if updates.isEmpty then .ok (idx, false)
  else
    match updateFieldTypeEndShardLoop toType updates idx with
    | .error e => .error e
    | .ok idx' => if !check then .ok (idx', true) else .ok (idx', false)

/-- Whether `UpdateFieldTypeRule.EndShard` saves the field index. -/
def updateFieldTypeEndShardSaves (check : Bool) (toType : DataType)
    (updates : List (String × List String)) (idx : FieldsIndex) : Bool :=
  match updateFieldTypeEndShard check toType updates idx with
  | .ok (_, s) => s
  | .error _ => false

/-- The save guard of `RenameMeasurementRule.EndShard` (src/unnamed/
part_008 lines 104-139): `Save` runs only when renames were recorded and
check mode is off. -/
def renameMeasurementEndShardSaves (check renamedNonempty : Bool) : Bool :=
  renamedNonempty && !check

/-- The save guard of `RenameFieldRule.EndShard` (src/unnamed/part_015
lines 84-133). -/
def renameFieldEndShardSaves (check renamedNonempty : Bool) : Bool :=
  renamedNonempty && !check

/-- The save guard of `DropMeasurementRule.EndShard` (src/unnamed/
part_010 lines 89-109). -/
def dropMeasurementEndShardSaves (check droppedNonempty : Bool) : Bool :=
  droppedNonempty && !check

/-- The conversion matrix of the spec (section 4.3.8), written from the
spec's table: target columns float, integer, boolean, string; `none` is
the table's failure entry (and covers the `unsigned` target, absent from
the table). -/
def specMatrixCast {F : Type} (ops : FloatOps F) (value : GoValue F) :
    DataType → Option (GoValue F)
  | .float =>
    match value.v with
    | .float _ => some value
    | .integer i => some { t := value.t, v := .float (ops.ofInt i) }
    | .unsigned u => some { t := value.t, v := .float (ops.ofNat u) }
    | .boolean _ => none
    | .str s =>
      match ops.parse s with
      | none => none
      | some f => some { t := value.t, v := .float f }
  | .integer =>
    match value.v with
    | .float f => some { t := value.t, v := .integer (ops.trunc f) }
    | .integer _ => some value
    | .unsigned _ => some value
    | .boolean b => some { t := value.t, v := .integer (if b then 1 else 0) }
    | .str s =>
      match goParseInt64 s with
      | none => none
      | some i => some { t := value.t, v := .integer i }
  | .boolean =>
    match value.v with
    | .float f => some { t := value.t, v := .boolean (ops.isNonzero f) }
    | .integer i => some { t := value.t, v := .boolean (i == 1) }
    | .unsigned u => some { t := value.t, v := .boolean (u == 1) }
    | .boolean _ => some value
    | .str s =>
      match goParseBool s with
      | none => none
      | some b => some { t := value.t, v := .boolean b }
  | .str =>
    match value.v with
    | .float f => some { t := value.t, v := .str (ops.format6 f) }
    | .integer i => some { t := value.t, v := .str (toString i) }
    | .unsigned u => some { t := value.t, v := .str (toString u) }
    | .boolean b => some { t := value.t, v := .str (if b then "true" else "false") }
    | .str _ => some value
  | .unsigned => none

/-- Spec side: every value of a batch converted through the spec's
conversion matrix; `none` when any single conversion fails. -/
def specCastAll {F : Type} (ops : FloatOps F) (toType : DataType) :
    List (GoValue F) → Option (List (GoValue F))
  | [] => some []
  | v :: rest =>
    match specMatrixCast ops v toType with
    | none => none
    | some v' =>
      match specCastAll ops toType rest with
      | none => none
      | some vs => some (v' :: vs)

/-- A concrete instantiation of the abstract float carrier (by integers),
used to evaluate the embedding at concrete inputs. -/
def intFloatOps : FloatOps Int where
  isNonzero := fun v => v != 0
  trunc := fun v => v
  ofInt := fun i => i
  ofNat := fun n => (n : Int)
  format6 := fun v => toString v
  parse := goParseInt64

/-- A rule instance whose `EndShard` result is the failing
update-field-type end-of-shard outcome for a shard whose index lacks the
recorded measurement. -/
def failingEndShardRule : PRule Unit where
  flags := StandardFlags
  filterKey := fun _ => true
  startShard := fun _ => true
  startTSM := fun _ => true
  apply := fun k v => .ok (some k, v)
  endShard :=
    (updateFieldTypeEndShard false DataType.integer [("mem", ["used"])] []).map
      fun _ => ()

/-! ## update-tag-value (src/unnamed/part_013; FilterKey also at
src/rules/update_tag_value.go lines 54-56) -/

/-- `UpdateTagValueRule.Apply` (src/unnamed/part_013 lines 110-133): the
measurement filter receives the full composite key; within a match, every
tag whose key and value pass the two filters gets its value replaced by
`renameFn`, and the key is re-composed.  The call never returns an
error. -/
def updateTagValueApply {V : Type} (measF keyF valF : String → Bool)
    (renameFn : String → String) (key : Key) (values : List V) :
    Option Key × List V :=
  if measF key then
    let sf := seriesAndField key
    let mt := parseKey sf.1
    let newTags := mt.2.map fun tag =>
      if keyF tag.key && valF tag.value then { tag with value := renameFn tag.value }
      else tag
    (some (seriesFieldKey (makeSeriesKey mt.1 newTags) sf.2), values)
  else
    (some key, values)

/-- `UpdateTagValueRule` as the pipeline sees it: `Standard` flags
(part_013 lines 57-59) and a `FilterKey` that returns `false` for every
key (part_013 lines 67-69; identically src/rules/update_tag_value.go
lines 54-56). -/
def updateTagValueRule {V : Type} (measF keyF valF : String → Bool)
    (renameFn : String → String) : PRule V where
  flags := StandardFlags
  filterKey := fun _ => false
  startShard := fun _ => true
  startTSM := fun _ => true
  apply := fun k v => .ok (updateTagValueApply measF keyF valF renameFn k v)
  endShard := .ok ()

/-- The update-tag-value configuration of the rule's own unit test
(src/rules/update_tag_value_test.go lines 84-93), with the value filter
as a plain string equality so that `RenameFnFromFilter` (rule.go lines
15-31) degenerates to the constant replacement. -/
def updateTagValueTestRule : PRule Unit :=
  updateTagValueRule (fun s => goStartsWith s "linux.")
    (fun k => k == "region") (fun v => v == "amazon-eu-west")
    (fun _ => "aws-eu-west")

/-! ## old-serie (src/rules/old_serie.go) -/

/-- `OldSerieRule.makeKey` (old_serie.go lines 230-237): the series key
when `byField` is false, the full composite key otherwise. -/
def oldSerieMakeKey (byField : Bool) (key : Key) : String :=
  if !byField then (seriesAndField key).1 else key

/-- `OldSerieRule.Apply` (old_serie.go lines 209-224): on a non-empty
batch, take the last value's timestamp and raise the accumulated maximum
for the derived key; always return nil key and nil values. -/
def oldSerieApply {F : Type} (byField : Bool) (series : List (String × Int))
    (key : Key) (values : List (GoValue F)) :
    List (String × Int) × Option Key × List (GoValue F) :=
  match values.getLast? with
  | none => (series, none, [])
  | some last =>
    let maxTs := last.t
    let s := oldSerieMakeKey byField key
    match alookup series s with
    | some ts =>
      if maxTs > ts then (aset series s maxTs, none, []) else (series, none, [])
    | none => (aset series s maxTs, none, [])

/-- The accumulated state after feeding a list of (key, values) batches
through `OldSerieRule.Apply`. -/
def oldSerieRun {F : Type} (byField : Bool) :
    List (String × Int) → List (Key × List (GoValue F)) → List (String × Int)
  | st, [] => st
  | st, (k, vs) :: rest => oldSerieRun byField (oldSerieApply byField st k vs).1 rest

/-- `OldSerieRule.End` (old_serie.go lines 159-176): sort the accumulated
keys (`sort.Strings`) and emit those whose accumulated maximum timestamp
is at most the cutoff, with that timestamp. -/
def oldSerieEnd (cutoff : Int) (st : List (String × Int)) :
    List (String × Int) :=
  let keys := (st.map Prod.fst).mergeSort strLe
  keys.filterMap fun k =>
    match alookup st k with
    | some ts => if ts ≤ cutoff then some (k, ts) else none
    | none => none

/-- Maximum of two optional timestamps. -/
def omax : Option Int → Option Int → Option Int
  | none, b => b
  | some a, none => some a
  | some a, some b => some (max a b)

/-- Maximum of a timestamp list (spec side: the "maximum timestamp over
all values seen"). -/
def listMaxTs : List Int → Option Int
  | [] => none
  | x :: xs => omax (some x) (listMaxTs xs)

/-- Spec side: all timestamps fed for a given derived key, over a batch
list. -/
def specTimestamps {F : Type} (byField : Bool)
    (batches : List (Key × List (GoValue F))) (k : String) : List Int :=
  ((batches.filter fun b => oldSerieMakeKey byField b.1 == k).map
    fun b => b.2.map (·.t)).flatten

/-- A timestamp list whose last element (when any) bounds every element —
the shape in which a TSM reader hands a batch's values to the rules
(spec glossary: TSM batches are time-ordered). -/
def lastIsMaxB (l : List Int) : Bool :=
  match l.getLast? with
  | none => true
  | some m => l.all fun x => decide (x ≤ m)

/-- A concrete batch list for evaluating the old-serie rule: two series,
one entirely before the cutoff used below, one after. -/
def oldSerieSampleBatches : List (Key × List (GoValue Int)) :=
  [("cpu,host=h#!~#idle",
     [⟨10, Payload.integer 1⟩, ⟨20, Payload.integer 2⟩]),
   ("disk,host=h#!~#usage",
     [⟨150, Payload.integer 3⟩])]

end Infix

namespace Infix

/-! ## Claim theorems: C9 and C10 -/

/-- C9: for every key and configured string list, the exclude filter
returns `false` exactly when the key equals some listed string and `true`
when it equals none of them; in particular it returns `true` on the empty
list. -/
theorem excludeFilter_spec (l : List String) (k : String) :
    (excludeFilter l k = true ↔ k ∉ l) ∧ excludeFilter [] k = true := by
  refine ⟨?_, rfl⟩
  induction l with
  | nil => simp [excludeFilter]
  | cons a rest ih =>
    simp only [excludeFilter]
    by_cases h : a = k
    · simp [h]
    · have hbeq : (a == k) = false := by
        simp only [beq_eq_false_iff_ne, ne_eq]
        exact h
      rw [hbeq]
      simp only [if_false, Bool.false_eq_true, ih, List.mem_cons]
      constructor
      · intro hk hor
        rcases hor with hor | hor
        · exact h hor.symm
        · exact hk hor
      · intro hall hk
        exact hall (Or.inr hk)

/-- C10: whenever the per-shard `shardTotal` counter of a drop-serie rule
is zero — which is exactly the state `start_shard` establishes, before any
`apply` has run — `end_shard` divides by zero and panics; likewise
`end_tsm` panics when the per-file `total` counter is zero, the state
`start_tsm` establishes. -/
theorem dropSerie_divide_by_zero (s : DropSerieState) :
    (s.shardTotal = 0 → dropSerieEndShard s = none) ∧
    (s.total = 0 → (dropSerieEndTSM s).2 = none) ∧
    (dropSerieStartShard s).shardTotal = 0 ∧
    (dropSerieStartTSM s).total = 0 := by
  refine ⟨?_, ?_, rfl, rfl⟩
  · intro h
    simp [dropSerieEndShard, goDiv, h]
  · intro h
    simp [dropSerieEndTSM, goDiv, h]

/-- Witness for C10: instantiated at the state reached by `start_shard`
from zeroed counters; both loggers panic. -/
theorem dropSerie_divide_by_zero_witness :
    dropSerieEndShard ⟨0, 0, 0, 0⟩ = none ∧
    (dropSerieEndTSM ⟨0, 0, 0, 0⟩).2 = none :=
  ⟨(dropSerie_divide_by_zero ⟨0, 0, 0, 0⟩).1 rfl,
   (dropSerie_divide_by_zero ⟨0, 0, 0, 0⟩).2.1 rfl⟩

/-! ## Claim theorems: C1 (drop exclusivity of the TSM write loop) -/

/-- The write loop over an initial segment that keeps the key alive
continues with the piped key and values. -/
theorem pipeWrite_append {V : Type} (l1 rest : List (PRule V)) (k : Key)
    (v : List V) (k' : Key) (v' : List V)
    (h : pipeWrite l1 k v = .ok (some k', v')) :
    pipeWrite (l1 ++ rest) k v = pipeWrite rest k' v' := by
  induction l1 generalizing k v with
  | nil =>
    simp only [pipeWrite, Except.ok.injEq, Prod.mk.injEq, Option.some.injEq] at h
    rw [List.nil_append, h.1, h.2]
  | cons r rs ih =>
    simp only [pipeWrite] at h ⊢
    cases happ : r.apply k v with
    | error e => rw [happ] at h; exact absurd h (by simp)
    | ok p =>
      rw [happ] at h
      obtain ⟨ko, vv⟩ := p
      cases ko with
      | none => simp at h
      | some k2 => exact ih k2 vv h

/-- C1: for a (key, values) pair fed through the active write rules of the
TSM pass, if some write rule returns a nil key then the loop stops there —
the remaining write rules are not applied, and no write for the pair
reaches the rewriter; if no write rule returns a nil key, the rewriter
receives exactly one write carrying the final piped key and values. -/
theorem tsm_write_drop_exclusivity {V : Type} (l1 l2 : List (PRule V))
    (r : PRule V) (key : Key) (values : List V) (k' : Key) (v' vd : List V) :
    (pipeWrite l1 key values = .ok (some k', v') →
      r.apply k' v' = .ok (none, vd) →
      pipeWrite (l1 ++ r :: l2) key values = .ok (none, vd) ∧
      rewriterWritesForPair (l1 ++ r :: l2) key values = .ok []) ∧
    (∀ k2 : Key, ∀ v2 : List V,
      pipeWrite (l1 ++ r :: l2) key values = .ok (some k2, v2) →
      rewriterWritesForPair (l1 ++ r :: l2) key values = .ok [(k2, v2)]) := by
  constructor
  · intro h1 h2
    have hpipe : pipeWrite (l1 ++ r :: l2) key values = .ok (none, vd) := by
      rw [pipeWrite_append l1 (r :: l2) key values k' v' h1]
      simp only [pipeWrite, h2]
    refine ⟨hpipe, ?_⟩
    simp only [rewriterWritesForPair, hpipe]
  · intro k2 v2 h
    simp only [rewriterWritesForPair, h]

/-- Witness for C1: a dropping rule yields no write; a mutating rule
yields exactly one write with the mutated key. -/
theorem tsm_write_drop_exclusivity_witness :
    (pipeWrite ([] ++ dropAllRule :: []) "cpu" ([] : List Unit) = .ok (none, []) ∧
      rewriterWritesForPair ([] ++ dropAllRule :: []) "cpu" [] = .ok []) ∧
    rewriterWritesForPair ([] ++ mutateKeyRule :: []) "cpu" [] = .ok [("cpu!", [])] :=
  ⟨(tsm_write_drop_exclusivity [] [] dropAllRule "cpu" [] "cpu" [] []).1 rfl rfl,
   (tsm_write_drop_exclusivity [] [] mutateKeyRule "cpu" [] "cpu" [] []).2 "cpu!" [] rfl⟩

/-! ## Claim theorems: C6 (StartShard's boolean is ignored) -/

/-- Counterexample for C6: a rule whose `StartShard` returns `false` for
the shard still takes part in the shard's TSM pass — its `Apply` runs and
its mutated key reaches the rewriter, whereas with the rule absent the key
is skipped. -/
theorem startShard_false_still_applies_counterexample :
    shardTSMKeyWrites [mutateKeyRule] ⟨1, "sh"⟩ "f.tsm" passFilter "cpu"
        ([] : List Unit) = .ok [("cpu!", [])] ∧
    mutateKeyRule.startShard ⟨1, "sh"⟩ = false ∧
    shardTSMKeyWrites ([] : List (PRule Unit)) ⟨1, "sh"⟩ "f.tsm" passFilter
        "cpu" [] = .ok [] :=
  ⟨rfl, rfl, rfl⟩

/-- C6 (amended): `processShard` discards the boolean returned by
`StartShard`, so the rule set entering the TSM pass is the full rule list;
a rule's participation in a TSM file is decided only by `StartTSM` (and the
per-key flag and `FilterKey` narrowing). -/
theorem startShard_result_ignored {V : Type} (rules : List (PRule V))
    (info : ShardInfo) :
    startShardLoop rules info = rules ∧
    ∀ path : String, ∀ g : Key → Bool, ∀ key : Key, ∀ values : List V,
      shardTSMKeyWrites rules info path g key values =
        if (tsmFileRules rules path).isEmpty then .ok []
        else processTSMKey g (tsmFileRules rules path) key values := by
  have hloop : startShardLoop rules info = rules := by
    induction rules with
    | nil => rfl
    | cons r rs ih => simp only [startShardLoop, ih]
  refine ⟨hloop, ?_⟩
  intro path g key values
  simp only [shardTSMKeyWrites, hloop]

/-! ## Claim theorems: C5 (check mode leaves the shard untouched) -/

/-- C5: with the check flag set, the TSM pass gets the no-op rewriter, no
WAL writer is created (hence the WAL pass never renames), the pipeline
does not save the field index, and none of the index-mutating rules'
`EndShard` callbacks saves it either. -/
theorem check_mode_frame {V : Type} (rules rs : List (PRule V))
    (deleted updates : List (String × List String)) (idx : FieldsIndex)
    (toType : DataType) (rn rf dm : Bool) :
    createRewriter true rules = .noop ∧
    createWALWriter true rs = false ∧
    pipelineSavesIndex true = false ∧
    dropFieldEndShardSaves true deleted idx = false ∧
    updateFieldTypeEndShardSaves true toType updates idx = false ∧
    renameMeasurementEndShardSaves true rn = false ∧
    renameFieldEndShardSaves true rf = false ∧
    dropMeasurementEndShardSaves true dm = false := by
  refine ⟨?_, ?_, rfl, ?_, ?_, ?_, ?_, ?_⟩
  · simp [createRewriter]
  · simp [createWALWriter]
  · simp [dropFieldEndShardSaves, dropFieldEndShard]
  · cases h : updates.isEmpty <;>
      cases h2 : updateFieldTypeEndShardLoop toType updates idx <;>
      simp [updateFieldTypeEndShardSaves, updateFieldTypeEndShard, h, h2]
  · simp [renameMeasurementEndShardSaves]
  · simp [renameFieldEndShardSaves]
  · simp [dropMeasurementEndShardSaves]

/-! ## Claim theorems: C7 (EndShard errors are discarded) -/

/-- C7 evaluated at the failing input: an update-field-type rule whose
`EndShard` fails (its recorded measurement is missing from the shard's
field index — the index-persist path errors), yet `processShard`'s tail
discards the error and the shard pass reports success. -/
theorem endShard_error_discarded :
    failingEndShardRule.endShard = .error "Could not find fields. Measurement mem" ∧
    processShardEnd false [failingEndShardRule] (.ok ()) = .ok () :=
  ⟨rfl, rfl⟩

/-! ## Claim theorems: C3 (drop-field index rebuild) -/

/-- C3 evaluated at the failing input: a drop-field rule matching fields
`used` and `free` of measurement `mem` drops both batches, but its
`deleted` map records only `used` (the `Apply` of the second field
appends to a local slice that is never stored back), so `EndShard`
rebuilds `mem`'s field map as previous-minus-`used` only: the dropped
field `free` survives in the index with its old type, contradicting the
claimed previous-minus-all-dropped-fields rebuild. -/
theorem dropField_second_field_retained_counterexample :
    dropFieldApply (includeFilter ["mem"]) (includeFilter ["used", "free"])
        (fun _ => true) [] "mem,host=h1#!~#used"
        [⟨0, Payload.float (7 : Int)⟩]
      = .ok ([("mem", ["used"])], none, []) ∧
    dropFieldApply (includeFilter ["mem"]) (includeFilter ["used", "free"])
        (fun _ => true) [("mem", ["used"])] "mem,host=h1#!~#free"
        [⟨0, Payload.float (7 : Int)⟩]
      = .ok ([("mem", ["used"])], none, []) ∧
    dropFieldEndShard false [("mem", ["used"])]
        [("mem", [("used", DataType.float), ("free", DataType.float),
                  ("available", DataType.float)])]
      = .ok ([("mem", [("free", DataType.float),
                       ("available", DataType.float)])], true) :=
  ⟨rfl, rfl, rfl⟩

/-! ## Claim theorems: C2 (update-tag-value is dead in the TSM pass) -/

/-- C2 evaluated at the failing input (the configuration and key of the
rule's own unit test): the rule's `Apply` would rewrite the matching tag
value, but `FilterKey` answers `false`, the per-key narrowing empties both
rule sets and the TSM pass skips the key entirely — no write, rewritten or
original, reaches the rewriter and the rule's `Apply` is never invoked. -/
theorem updateTagValue_dead_in_tsm_pass :
    processTSMKey passFilter [updateTagValueTestRule]
        "linux.cpu,host=my-host,region=amazon-eu-west#!~#idle" ([] : List Unit)
      = .ok [] ∧
    filterRulesMatchingKey
        (filterFlaggedRules [updateTagValueTestRule] TSMWriteOnly)
        "linux.cpu,host=my-host,region=amazon-eu-west#!~#idle" = [] ∧
    updateTagValueTestRule.apply
        "linux.cpu,host=my-host,region=amazon-eu-west#!~#idle" []
      = .ok (some "linux.cpu,host=my-host,region=aws-eu-west#!~#idle", []) ∧
    ("linux.cpu,host=my-host,region=aws-eu-west#!~#idle" : String) ≠
      "linux.cpu,host=my-host,region=amazon-eu-west#!~#idle" := by
  refine ⟨rfl, rfl, rfl, by decide⟩

/-! ## Claim theorems: C4 (update-field-type conversion matrix) -/

/-- Each single-value conversion of `EnsureValueType` agrees with the
spec's conversion matrix: a matrix entry yields the same converted value
(with some `ok` flag), a matrix failure entry yields an error. -/
theorem ensureValueType_matrix {F : Type} (ops : FloatOps F)
    (value : GoValue F) (tgt : DataType) :
    match specMatrixCast ops value tgt with
    | some v' => ∃ flag, ensureValueType ops value tgt = .ok (v', flag)
    | none => ∃ e, ensureValueType ops value tgt = .error e := by
  obtain ⟨t, pv⟩ := value
  cases tgt <;> cases pv <;>
    first
    | exact ⟨_, rfl⟩
    | (rename_i s
       simp only [specMatrixCast]
       first
       | (cases hp : ops.parse s with
          | none =>
            exact ⟨"parsing " ++ s ++ ": invalid syntax",
              by simp only [ensureValueType, castToFloat, hp]⟩
          | some f =>
            exact ⟨false, by simp only [ensureValueType, castToFloat, hp]⟩)
       | (cases hp : goParseInt64 s with
          | none =>
            exact ⟨"parsing " ++ s ++ ": invalid syntax",
              by simp only [ensureValueType, castToInteger, hp]⟩
          | some i =>
            exact ⟨false, by simp only [ensureValueType, castToInteger, hp]⟩)
       | (cases hp : goParseBool s with
          | none =>
            exact ⟨"parsing " ++ s ++ ": invalid syntax",
              by simp only [ensureValueType, castToBoolean, hp]⟩
          | some b =>
            exact ⟨false, by simp only [ensureValueType, castToBoolean, hp]⟩))

/-- Unfolding of the apply value loop on a successful head conversion:
the loop continues on the tail with the recorded updates map. -/
theorem updateFieldTypeLoop_cons_ok {F : Type} (ops : FloatOps F)
    (toType : DataType) (measurement field : String)
    (updates : List (String × List String)) (v : GoValue F)
    (rest : List (GoValue F)) (v' : GoValue F) (flag : Bool)
    (hf : ensureValueType ops v toType = .ok (v', flag)) :
    updateFieldTypeLoop ops toType measurement field updates (v :: rest) =
      (match updateFieldTypeLoop ops toType measurement field
          (updateFieldTypeRecord measurement field flag updates) rest with
       | .error e => .error e
       | .ok (u, vs) => .ok (u, v' :: vs)) := by
  simp only [updateFieldTypeLoop, hf]

/-- The apply value loop realises the spec's per-batch conversion: when
every value converts per the matrix the loop returns exactly the
converted list (with some updates map), and when any value hits a matrix
failure entry the loop errors. -/
theorem updateFieldTypeLoop_matrix {F : Type} (ops : FloatOps F)
    (toType : DataType) (measurement field : String) :
    ∀ (values : List (GoValue F)) (updates : List (String × List String)),
    match specCastAll ops toType values with
    | some vs => ∃ u,
        updateFieldTypeLoop ops toType measurement field updates values = .ok (u, vs)
    | none => ∃ e,
        updateFieldTypeLoop ops toType measurement field updates values = .error e := by
  intro values
  induction values with
  | nil => intro updates; exact ⟨updates, rfl⟩
  | cons v rest ih =>
    intro updates
    have hv := ensureValueType_matrix ops v toType
    simp only [specCastAll]
    cases hm : specMatrixCast ops v toType with
    | none =>
      rw [hm] at hv
      obtain ⟨e, he⟩ := hv
      exact ⟨e, by simp only [updateFieldTypeLoop, he]⟩
    | some v' =>
      rw [hm] at hv
      obtain ⟨flag, hf⟩ := hv
      have hU := updateFieldTypeLoop_cons_ok ops toType measurement field
        updates v rest v' flag hf
      have hrest := ih (updateFieldTypeRecord measurement field flag updates)
      cases hr : specCastAll ops toType rest with
      | none =>
        rw [hr] at hrest
        obtain ⟨e, he⟩ := hrest
        exact ⟨e, by rw [hU, he]⟩
      | some vs =>
        rw [hr] at hrest
        obtain ⟨u, hu⟩ := hrest
        exact ⟨u, by rw [hU, hu]⟩

/-- C4: for a batch whose measurement and field match an update-field-type
rule, when the batch's InfluxQLType equals `fromType` and `fromType`
differs from `toType`, `Apply` converts every value exactly per the spec's
conversion matrix (erroring when the matrix entry is a failure);
otherwise — wrong source type or `fromType = toType` — the values pass
through unchanged, updates map included. -/
theorem updateFieldType_apply_matrix {F : Type} (ops : FloatOps F)
    (measF fieldF : String → Bool) (fromType toType : DataType)
    (updates : List (String × List String)) (key : Key)
    (values : List (GoValue F))
    (hm : measF (parseKey (seriesAndField key).1).1 = true)
    (hf : fieldF (seriesAndField key).2 = true) :
    (influxQLType values = .ok fromType → fromType ≠ toType →
      match specCastAll ops toType values with
      | some vs => ∃ u,
          updateFieldTypeApply ops measF fieldF fromType toType updates key values
            = .ok (u, key, vs)
      | none => ∃ e,
          updateFieldTypeApply ops measF fieldF fromType toType updates key values
            = .error e) ∧
    (∀ it, influxQLType values = .ok it → (it ≠ fromType ∨ it = toType) →
      updateFieldTypeApply ops measF fieldF fromType toType updates key values
        = .ok (updates, key, values)) := by
  have hcond : (measF (parseKey (seriesAndField key).1).1 &&
      fieldF (seriesAndField key).2) = true := by rw [hm, hf]; rfl
  constructor
  · intro hty hne
    have hbne : (fromType != fromType) = false := by simp
    have hbeq : (fromType == toType) = false := by
      simp only [beq_eq_false_iff_ne, ne_eq]
      exact hne
    have hl := updateFieldTypeLoop_matrix ops toType
      (parseKey (seriesAndField key).1).1 (seriesAndField key).2 values updates
    cases hc : specCastAll ops toType values with
    | none =>
      rw [hc] at hl
      obtain ⟨e, he⟩ := hl
      exact ⟨e, by
        simp only [updateFieldTypeApply, hcond, if_true, hty, hbne, hbeq,
          Bool.or_self, Bool.false_eq_true, if_false, he]⟩
    | some vs =>
      rw [hc] at hl
      obtain ⟨u, hu⟩ := hl
      exact ⟨u, by
        simp only [updateFieldTypeApply, hcond, if_true, hty, hbne, hbeq,
          Bool.or_self, Bool.false_eq_true, if_false, hu]⟩
  · intro it hty hor
    have horb : (it != fromType || it == toType) = true := by
      rcases hor with h | h
      · have : (it != fromType) = true := by
          simp only [bne_iff_ne, ne_eq]
          exact h
        rw [this, Bool.true_or]
      · have : (it == toType) = true := by
          simp only [beq_iff_eq]
          exact h
        rw [this, Bool.or_true]
    simp only [updateFieldTypeApply, hcond, if_true, hty, horb]

/-- Witness for C4: the spec's retype scenario — a string batch under a
string-to-integer rule parses to the integer batch (the measurement and
field filter hypotheses and the type gate discharged at the concrete
input). -/
theorem updateFieldType_apply_matrix_witness :
    ∃ u, updateFieldTypeApply intFloatOps (fun m => m == "req")
        (fun f => f == "value") DataType.str DataType.integer []
        "req#!~#value" [⟨0, Payload.str "12"⟩, ⟨1, Payload.str "15"⟩]
      = .ok (u, "req#!~#value",
             [⟨0, Payload.integer 12⟩, ⟨1, Payload.integer 15⟩]) := by
  have h := (updateFieldType_apply_matrix intFloatOps (fun m => m == "req")
      (fun f => f == "value") DataType.str DataType.integer []
      "req#!~#value" [⟨0, Payload.str "12"⟩, ⟨1, Payload.str "15"⟩]
      rfl rfl).1 rfl (by decide)
  exact h

/-! ## Claim theorems: C8 (old-serie accumulation and report) -/

/-- Map lookup after a map write at the same key. -/
theorem alookup_aset_self {α : Type} (st : List (String × α)) (k : String)
    (v : α) : alookup (aset st k v) k = some v := by
  induction st with
  | nil => simp [aset, alookup]
  | cons p rest ih =>
    obtain ⟨k', v'⟩ := p
    by_cases h : k' = k
    · subst h
      simp [aset, alookup]
    · have hb : (k' == k) = false := by
        simp only [beq_eq_false_iff_ne, ne_eq]; exact h
      simp [aset, alookup, hb, ih]

/-- Map lookup after a map write at a different key. -/
theorem alookup_aset_ne {α : Type} (st : List (String × α)) (k' k : String)
    (v : α) (h : k' ≠ k) : alookup (aset st k' v) k = alookup st k := by
  have hb : (k' == k) = false := by
    simp only [beq_eq_false_iff_ne, ne_eq]; exact h
  induction st with
  | nil => simp [aset, alookup, hb]
  | cons p rest ih =>
    obtain ⟨a, b⟩ := p
    by_cases ha : a = k'
    · subst ha
      simp [aset, alookup, hb]
    · have hab : (a == k') = false := by
        simp only [beq_eq_false_iff_ne, ne_eq]; exact ha
      by_cases hak : a = k
      · subst hak
        simp [aset, alookup, hab]
      · have hakb : (a == k) = false := by
          simp only [beq_eq_false_iff_ne, ne_eq]; exact hak
        simp [aset, alookup, hab, hakb, ih]

/-- A successful lookup puts the key among the map's keys. -/
theorem alookup_mem_map_fst {α : Type} (st : List (String × α)) (k : String)
    (v : α) (h : alookup st k = some v) : k ∈ st.map Prod.fst := by
  induction st with
  | nil => simp [alookup] at h
  | cons p rest ih =>
    obtain ⟨a, b⟩ := p
    by_cases ha : a = k
    · subst ha; simp
    · have hab : (a == k) = false := by
        simp only [beq_eq_false_iff_ne, ne_eq]; exact ha
      simp only [alookup, hab, Bool.false_eq_true, if_false] at h
      simp [ih h]

/-- `omax` ignores a missing right operand. -/
theorem omax_none_right (a : Option Int) : omax a none = a := by
  cases a <;> rfl

/-- `omax` is associative. -/
theorem omax_assoc (a b c : Option Int) :
    omax (omax a b) c = omax a (omax b c) := by
  cases a <;> cases b <;> cases c <;> simp [omax, max_assoc]

/-- The maximum of an appended timestamp list. -/
theorem listMaxTs_append (l1 l2 : List Int) :
    listMaxTs (l1 ++ l2) = omax (listMaxTs l1) (listMaxTs l2) := by
  induction l1 with
  | nil => rfl
  | cons x xs ih =>
    simp only [List.cons_append, listMaxTs, List.append_eq, ih, omax_assoc]

/-- On a last-is-max list the maximum is the last element. -/
theorem lastIsMaxB_listMaxTs (l : List Int) (h : lastIsMaxB l = true) :
    listMaxTs l = l.getLast? := by
  induction l with
  | nil => rfl
  | cons x xs ih =>
    cases xs with
    | nil => simp [listMaxTs, omax]
    | cons y ys =>
      cases hm : (y :: ys).getLast? with
      | none => exact absurd (List.getLast?_eq_none_iff.mp hm) (by simp)
      | some m =>
        have hgl : (x :: y :: ys).getLast? = some m := by
          rw [List.getLast?_cons_cons, hm]
        have hAll : (x :: y :: ys).all (fun z => decide (z ≤ m)) = true := by
          simp only [lastIsMaxB, hgl] at h
          exact h
        rw [List.all_cons, Bool.and_eq_true] at hAll
        have hx : x ≤ m := of_decide_eq_true hAll.1
        have htail : lastIsMaxB (y :: ys) = true := by
          simp only [lastIsMaxB, hm]
          exact hAll.2
        have ihh := ih htail
        rw [hgl]
        show omax (some x) (listMaxTs (y :: ys)) = some m
        rw [ihh, hm]
        simp [omax, max_eq_right hx]

/-- Lookup in the old-serie state after one `Apply`: unrelated keys are
untouched, the derived key absorbs the batch's maximum timestamp. -/
theorem oldSerieApply_lookup {F : Type} (byField : Bool)
    (st : List (String × Int)) (key : Key) (values : List (GoValue F))
    (hlm : lastIsMaxB (values.map (·.t)) = true) (k : String) :
    alookup ((oldSerieApply byField st key values).1) k =
      omax (alookup st k)
        (if oldSerieMakeKey byField key == k
         then listMaxTs (values.map (·.t)) else none) := by
  cases hv : values.getLast? with
  | none =>
    have hnil : values = [] := List.getLast?_eq_none_iff.mp hv
    subst hnil
    simp [oldSerieApply, listMaxTs, ite_self, omax_none_right]
  | some last =>
    have hmax : listMaxTs (values.map (·.t)) = some last.t := by
      rw [lastIsMaxB_listMaxTs _ hlm, List.getLast?_map, hv]
      rfl
    rw [hmax]
    simp only [oldSerieApply, hv]
    by_cases hk : oldSerieMakeKey byField key = k
    · have hkb : (oldSerieMakeKey byField key == k) = true := by
        simp only [beq_iff_eq]; exact hk
      rw [hkb]
      simp only [if_true]
      cases hl : alookup st (oldSerieMakeKey byField key) with
      | some ts =>
        rw [hk] at hl
        by_cases hgt : last.t > ts
        · simp only [if_pos hgt]
          rw [hk, alookup_aset_self, hl]
          simp [omax, max_eq_right (le_of_lt hgt)]
        · simp only [if_neg hgt]
          rw [hl]
          simp [omax, max_eq_left (le_of_not_lt hgt)]
      | none =>
        rw [hk] at hl
        rw [hk, alookup_aset_self, hl]
        rfl
    · have hkb : (oldSerieMakeKey byField key == k) = false := by
        simp only [beq_eq_false_iff_ne, ne_eq]; exact hk
      rw [hkb]
      simp only [Bool.false_eq_true, if_false, omax_none_right]
      cases hl : alookup st (oldSerieMakeKey byField key) with
      | some ts =>
        by_cases hgt : last.t > ts
        · simp only [if_pos hgt]
          exact alookup_aset_ne st _ k _ hk
        · simp only [if_neg hgt]
      | none => exact alookup_aset_ne st _ k _ hk

/-- The spec timestamp list over a batch-list head. -/
theorem specTimestamps_cons {F : Type} (byField : Bool)
    (b : Key × List (GoValue F)) (bs : List (Key × List (GoValue F)))
    (k : String) :
    specTimestamps byField (b :: bs) k =
      (if oldSerieMakeKey byField b.1 == k then b.2.map (·.t) else []) ++
        specTimestamps byField bs k := by
  by_cases h : (oldSerieMakeKey byField b.1 == k) = true
  · simp [specTimestamps, List.filter_cons, h]
  · simp only [Bool.not_eq_true] at h
    simp [specTimestamps, List.filter_cons, h]

/-- Lookup in the accumulated old-serie state over a batch list. -/
theorem oldSerieRun_lookup {F : Type} (byField : Bool) :
    ∀ (batches : List (Key × List (GoValue F))) (st : List (String × Int)),
    (∀ b ∈ batches, lastIsMaxB (b.2.map (·.t)) = true) →
    ∀ k, alookup (oldSerieRun byField st batches) k =
      omax (alookup st k) (listMaxTs (specTimestamps byField batches k)) := by
  intro batches
  induction batches with
  | nil =>
    intro st _ k
    simp [oldSerieRun, specTimestamps, listMaxTs, omax_none_right]
  | cons b bs ih =>
    intro st h k
    obtain ⟨bk, bv⟩ := b
    have hb := h (bk, bv) (List.mem_cons_self _ _)
    have hbs : ∀ b' ∈ bs, lastIsMaxB (b'.2.map (·.t)) = true :=
      fun b' hb' => h b' (List.mem_cons_of_mem _ hb')
    have hcontrib :
        (if (oldSerieMakeKey byField bk == k) then listMaxTs (bv.map (·.t)) else none)
          = listMaxTs (if (oldSerieMakeKey byField bk == k) then bv.map (·.t) else []) := by
      by_cases hc : (oldSerieMakeKey byField bk == k) = true
      · simp [hc]
      · simp only [Bool.not_eq_true] at hc
        simp [hc, listMaxTs]
    show alookup (oldSerieRun byField (oldSerieApply byField st bk bv).1 bs) k = _
    rw [ih _ hbs k, oldSerieApply_lookup byField st bk bv hb k,
      specTimestamps_cons, listMaxTs_append, hcontrib, omax_assoc]

/-- `lexLe` is transitive. -/
theorem lexLe_trans :
    ∀ a b c : List Char, lexLe a b = true → lexLe b c = true →
      lexLe a c = true := by
  intro a
  induction a with
  | nil => intro b c _ _; rfl
  | cons x xs ih =>
    intro b c h1 h2
    cases b with
    | nil => simp [lexLe] at h1
    | cons y ys =>
      cases c with
      | nil => simp [lexLe] at h2
      | cons z zs =>
        simp only [lexLe] at h1 h2 ⊢
        by_cases hxy : x = y
        · subst hxy
          rw [if_pos rfl] at h1
          by_cases hyz : x = z
          · subst hyz
            rw [if_pos rfl] at h2 ⊢
            exact ih ys zs h1 h2
          · rw [if_neg hyz] at h2 ⊢
            exact h2
        · rw [if_neg hxy] at h1
          have hxy' : x < y := of_decide_eq_true h1
          by_cases hyz : y = z
          · subst hyz
            rw [if_neg hxy]
            exact h1
          · rw [if_neg hyz] at h2
            have hyz' : y < z := of_decide_eq_true h2
            have hxz : x < z := lt_trans hxy' hyz'
            rw [if_neg (ne_of_lt hxz)]
            exact decide_eq_true hxz

/-- `lexLe` is total. -/
theorem lexLe_total : ∀ a b : List Char, (lexLe a b || lexLe b a) = true := by
  intro a
  induction a with
  | nil => intro b; simp [lexLe]
  | cons x xs ih =>
    intro b
    cases b with
    | nil => simp [lexLe]
    | cons y ys =>
      simp only [lexLe]
      by_cases hxy : x = y
      · subst hxy
        rw [if_pos rfl, if_pos rfl]
        exact ih ys
      · rw [if_neg hxy, if_neg (Ne.symm hxy)]
        rcases lt_or_gt_of_ne hxy with h | h
        · simp [decide_eq_true h]
        · simp [decide_eq_true h]

/-- `strLe` is transitive. -/
theorem strLe_trans (a b c : String) (h1 : strLe a b = true)
    (h2 : strLe b c = true) : strLe a c = true :=
  lexLe_trans a.data b.data c.data h1 h2

/-- `strLe` is total. -/
theorem strLe_total (a b : String) : (strLe a b || strLe b a) = true :=
  lexLe_total a.data b.data

/-- C8: for any batch sequence (each batch's values arriving with their
last timestamp maximal, as a TSM reader provides them), the old-serie
rule's `Apply` always returns nil key and nil values; the accumulated
state holds, per derived key, exactly the maximum timestamp over all
values seen for it; `End` emits exactly the accumulated keys whose
maximum is at most the cutoff, together with that maximum; and the
emitted list is sorted by the string order of `sort.Strings`. -/
theorem oldSerie_spec {F : Type} (byField : Bool) (cutoff : Int)
    (batches : List (Key × List (GoValue F)))
    (h : ∀ b ∈ batches, lastIsMaxB (b.2.map (·.t)) = true) :
    (∀ (st : List (String × Int)) (key : Key) (values : List (GoValue F)),
       (oldSerieApply byField st key values).2 = (none, [])) ∧
    (∀ k, alookup (oldSerieRun byField [] batches) k =
       listMaxTs (specTimestamps byField batches k)) ∧
    (∀ k ts, ((k, ts) ∈ oldSerieEnd cutoff (oldSerieRun byField [] batches) ↔
       (listMaxTs (specTimestamps byField batches k) = some ts ∧ ts ≤ cutoff))) ∧
    List.Pairwise (fun a b : String × Int => strLe a.1 b.1 = true)
      (oldSerieEnd cutoff (oldSerieRun byField [] batches)) := by
  have hlook : ∀ k, alookup (oldSerieRun byField [] batches) k =
      listMaxTs (specTimestamps byField batches k) := by
    intro k
    exact (oldSerieRun_lookup byField batches [] h k).trans rfl
  refine ⟨?_, hlook, ?_, ?_⟩
  · intro st key values
    simp only [oldSerieApply]
    cases values.getLast? with
    | none => rfl
    | some last =>
      cases alookup st (oldSerieMakeKey byField key) with
      | some ts => by_cases hgt : last.t > ts <;> simp [hgt]
      | none => rfl
  · intro k ts
    simp only [oldSerieEnd, List.mem_filterMap]
    constructor
    · rintro ⟨k', hk', hfk'⟩
      cases hl : alookup (oldSerieRun byField [] batches) k' with
      | none => rw [hl] at hfk'; simp at hfk'
      | some ts' =>
        rw [hl] at hfk'
        by_cases hle : ts' ≤ cutoff
        · simp only [if_pos hle, Option.some.injEq, Prod.mk.injEq] at hfk'
          obtain ⟨hkk, hts⟩ := hfk'
          subst hkk; subst hts
          rw [← hlook k']
          exact ⟨hl, hle⟩
        · simp [hle] at hfk'
    · rintro ⟨hmax, hle⟩
      have hl : alookup (oldSerieRun byField [] batches) k = some ts := by
        rw [hlook]; exact hmax
      refine ⟨k, ?_, ?_⟩
      · exact ((oldSerieRun byField [] batches).map Prod.fst |>.mergeSort_perm
          strLe).mem_iff.mpr (alookup_mem_map_fst _ k ts hl)
      · rw [hl]
        simp [hle]
  · simp only [oldSerieEnd]
    apply List.pairwise_filterMap.mpr
    have hsorted := List.sorted_mergeSort strLe_trans strLe_total
      ((oldSerieRun byField [] batches).map Prod.fst)
    refine hsorted.imp ?_
    intro a a' hab b hb b' hb'
    have hfst : ∀ (x : String) (p : String × Int),
        p ∈ (match alookup (oldSerieRun byField [] batches) x with
             | some u => if u ≤ cutoff then some (x, u) else none
             | none => none) → p.1 = x := by
      intro x p hp
      cases hl : alookup (oldSerieRun byField [] batches) x with
      | none => rw [hl] at hp; simp at hp
      | some u =>
        rw [hl] at hp
        have hp' : p ∈ (if u ≤ cutoff then some (x, u) else none) := hp
        by_cases hu : u ≤ cutoff
        · rw [if_pos hu] at hp'
          cases hp'
          rfl
        · rw [if_neg hu] at hp'
          cases hp'
    rw [hfst a b hb, hfst a' b' hb']
    exact hab

/-- Witness for C8: the spec's old-series scenario — cutoff 100, a `cpu`
series wholly before it and a `disk` series after it; the batch-order
hypothesis is discharged by evaluation, `cpu,host=h` is accumulated at
its maximum 20 and emitted, and the report membership follows from the
theorem. -/
theorem oldSerie_spec_witness :
    (oldSerieApply false [] "cpu,host=h#!~#idle"
       [(⟨10, Payload.integer 1⟩ : GoValue Int)]).2 = (none, []) ∧
    alookup (oldSerieRun false [] oldSerieSampleBatches) "cpu,host=h" = some 20 ∧
    ("cpu,host=h", (20 : Int)) ∈
      oldSerieEnd 100 (oldSerieRun false [] oldSerieSampleBatches) := by
  have h := oldSerie_spec false 100 oldSerieSampleBatches (by decide)
  refine ⟨h.1 [] _ _, ?_, ?_⟩
  · rw [h.2.1 "cpu,host=h"]
    decide
  · exact (h.2.2.1 "cpu,host=h" 20).mpr (by decide)

end Infix
